import Mathlib

/-!
Shallow embedding of the transcribe-ws-server repository (hypercliq/transcribe-ws-server)
for verification of its design specification.

The embedding covers:

* the audio ingestion bridge `createAudioStream` of `src/utils/audio-stream.js`
  (message queue, end-of-stream flag, close flag, the single-slot waiter, the
  pull loop), modelled as a small-step transition system whose steps are either
  the delivery of one network event to the registered handlers or one iteration
  of the pull loop;
* the result relay `handleTranscriptionStream` / `processTranscriptEvent` /
  `handleTranscriptionError` of `handlers/transcription-handler.js`;
* the admission control, connection counter and startup-timeout logic of the
  `wss.on('connection', ...)` handler of the server entry point.

Machine-observable effects (messages sent to the client, socket closes, log
lines, aborting the engine request, clearing the timer) are recorded as
explicit `Act` values so that theorems can speak about exactly what a code
path emits and in which order.
-/

/- ===================================================================
   Part 1: the audio ingestion bridge, src/utils/audio-stream.js
   =================================================================== -/

/-- An audio chunk: an opaque byte sequence (`Buffer` contents). -/
abbrev Chunk := List Nat

/-- An inbound WebSocket frame as seen by `messageHandler`
(`ws.binaryType = 'arraybuffer'`): a binary frame arrives as an
`ArrayBuffer`, anything else (a text frame) as a string. -/
inductive Frame
  | binary (data : Chunk)
  | text (s : String)
deriving DecidableEq, Repr

/-- A network event delivered to the listeners `createAudioStream` registers:
a `'message'` event carrying a frame, or the `'close'` event. -/
inductive NetEvent
  | msg (f : Frame)
  | close
deriving DecidableEq, Repr

/-- The state of the generator's consumer side.

* `running`: the pull loop is executing (between suspension points);
* `waiting`: the loop is suspended in `await waitForMessage()` and
  `resolvePromise` holds the live resolver;
* `waitingDead`: the loop is suspended but `resolvePromise` has been cleared
  (set to `undefined`) without being invoked, so nothing can resume it;
* `done`: the generator has terminated. -/
inductive Consumer
  | running
  | waiting
  | waitingDead
  | done
deriving DecidableEq, Repr

/-- The complete state of one `createAudioStream` instance plus the network
events that have been sent but not yet delivered to its handlers
(`pending`, in arrival order).  `output` is the list of `AudioChunk` values
yielded so far; the zero-length chunk `[]` is the end marker. -/
structure BridgeState where
  messageQueue : List Chunk
  endStreamReceived : Bool
  isClosed : Bool
  consumer : Consumer
  output : List Chunk
  pending : List NetEvent
deriving DecidableEq, Repr

/-- `if (resolvePromise) { resolvePromise(); resolvePromise = undefined }`:
invoking the stored resolver resumes a suspended consumer; when no resolver
is stored this is a no-op. -/
def wake (c : Consumer) : Consumer :=
  if c = .waiting then .running else c

/-- `messageHandler` (src/utils/audio-stream.js lines 25-49): a binary frame
(`message instanceof ArrayBuffer`) is appended to `messageQueue` and any
suspended consumer is woken; ANY other frame sets `endStreamReceived` and
wakes any suspended consumer (the handler does not inspect the text). -/
def messageHandler (f : Frame) (s : BridgeState) : BridgeState :=
  match f with
  | .binary d =>
      { s with messageQueue := s.messageQueue ++ [d], consumer := wake s.consumer }
  | .text _ =>
      { s with endStreamReceived := true, consumer := wake s.consumer }

/-- `closeHandler` (src/utils/audio-stream.js lines 51-57): sets `isClosed`,
and clears `resolvePromise` WITHOUT invoking it
(`if (resolvePromise) { resolvePromise = undefined }`), so a consumer
suspended at this point becomes unwakeable (`waitingDead`). -/
def closeHandler (s : BridgeState) : BridgeState :=
  { s with isClosed := true,
           consumer := if s.consumer = .waiting then .waitingDead else s.consumer }

/-- One iteration of the pull loop (src/utils/audio-stream.js lines 62-84),
executed only while the consumer is running: dequeue and yield the head chunk
if the queue is non-empty; otherwise, if `endStreamReceived`, yield the
zero-length end marker and terminate; otherwise, if `isClosed`, terminate
without a marker; otherwise suspend in `await waitForMessage()`. -/
def consumerStep (s : BridgeState) : BridgeState :=
  if s.consumer = .running then
    match s.messageQueue with
    | c :: rest => { s with messageQueue := rest, output := s.output ++ [c] }
    | [] =>
        if s.endStreamReceived then
          { s with output := s.output ++ [([] : Chunk)], consumer := .done }
        else if s.isClosed then
          { s with consumer := .done }
        else
          { s with consumer := .waiting }
  else s

/-- A scheduling step: either deliver the next pending network event to the
handlers, or let the pull loop take one step.  Disabled steps are no-ops. -/
inductive Step
  | deliver
  | consume
deriving DecidableEq, Repr

/-- Execute one scheduling step. -/
def step : Step → BridgeState → BridgeState
  | .deliver, s =>
      match s.pending with
      | [] => s
      | e :: rest =>
          let s' := { s with pending := rest }
          match e with
          | .msg f => messageHandler f s'
          | .close => closeHandler s'
  | .consume, s => consumerStep s

/-- Run a whole schedule (an arbitrary interleaving of event deliveries and
pull-loop iterations). -/
def run (s : BridgeState) : List Step → BridgeState
  | [] => s
  | a :: σ => run (step a s) σ

/-- The `'message'` event for one binary audio frame. -/
def binMsg (b : Chunk) : NetEvent := .msg (.binary b)

/-- The explicit end-of-stream frame the protocol documents (`END_OF_STREAM`). -/
def endMsg : NetEvent := .msg (.text "END_OF_STREAM")

/-- The network events produced by a client that sends the binary frames `bs`
in order, then optionally the explicit end-of-stream frame, then optionally
closes the connection (WebSocket delivers messages in order, and `'close'`
after all messages). -/
def clientEvents (bs : List Chunk) (sendEnd sendClose : Bool) : List NetEvent :=
  bs.map binMsg
    ++ (if sendEnd then [endMsg] else [])
    ++ (if sendClose then [NetEvent.close] else [])

/-- The generator's state when first pulled: empty queue, no flags set, the
pull loop running, nothing yielded, all the client's events still undelivered. -/
def initState (evts : List NetEvent) : BridgeState :=
  ⟨[], false, false, .running, [], evts⟩

/-- The back-to-back schedule: deliver every event first, then run the pull
loop to completion. -/
def canonicalSchedule (evts : List NetEvent) (bs : List Chunk) : List Step :=
  List.replicate evts.length .deliver ++ List.replicate (bs.length + 1) .consume

/- ===================================================================
   Part 2: the result relay, handlers/transcription-handler.js
   =================================================================== -/

/-- One transcription result (`Results[i]`): `Alternatives` is a list whose
entries may or may not carry a `Transcript` string, and `IsPartial` is the
partial/final flag. -/
structure TResult where
  alternatives : List (Option String)
  isPartial : Bool
deriving DecidableEq, Repr

/-- The `Transcript` object: its `Results` field may be absent. -/
structure TranscriptPayload where
  results : Option (List TResult)
deriving DecidableEq, Repr

/-- The `TranscriptEvent` object: its `Transcript` field may be absent. -/
structure TranscriptEventPayload where
  transcript : Option TranscriptPayload
deriving DecidableEq, Repr

/-- One event of the engine's result stream: its `TranscriptEvent` field may
be absent. -/
structure EngineEvent where
  transcriptEvent : Option TranscriptEventPayload
deriving DecidableEq, Repr

/-- `event.TranscriptEvent?.Transcript?.Results`: the optional chain. -/
def eventResults (e : EngineEvent) : Option (List TResult) :=
  e.transcriptEvent.bind fun te => te.transcript.bind fun t => t.results

/-- `result.Alternatives[0]?.Transcript`: the best alternative's transcript,
absent when there is no alternative or the first alternative has no text. -/
def extractTranscript (r : TResult) : Option String :=
  r.alternatives.head?.bind id

/-- JavaScript truthiness of `transcript` in `if (transcript)`: `undefined`
and the empty string are falsy. -/
def jsTruthy : Option String → Bool
  | some t => t != ""
  | none => false

/-- A structured message sent to the client over the WebSocket. -/
inductive ClientMsg
  | transcript (text : String)
  | partialTranscript (text : String)
  | error (text : String)
deriving DecidableEq, Repr

/-- A log level of the client logger. -/
inductive LogLevel
  | debug
  | info
  | warn
  | error
deriving DecidableEq, Repr

/-- An externally observable effect of the server code. -/
inductive Act
  | send (m : ClientMsg)
  | close (code : Nat) (reason : String)
  | abortTranscribe
  | clearTimer
  | log (lvl : LogLevel) (msg : String)
deriving DecidableEq, Repr

/-- The body of the `for (const result of results)` loop of
`processTranscriptEvent` (handlers/transcription-handler.js lines 40-56):
with a truthy transcript, a final result is sent as `{ transcript }`, a
partial result as `{ partialTranscript }` only when `sendPartials` is true;
otherwise only a warning is logged. -/
def processResult (sendPartials : Bool) (r : TResult) : List Act :=
  let transcript := extractTranscript r
  if jsTruthy transcript then
    if !r.isPartial then
      [.log .info ("Final transcript: " ++ transcript.getD ""),
       .send (.transcript (transcript.getD ""))]
    else if sendPartials then
      [.log .debug ("Partial transcript: " ++ transcript.getD ""),
       .send (.partialTranscript (transcript.getD ""))]
    else
      [.log .debug "Partial transcripts are disabled."]
  else
    [.log .warn "Received result without transcript."]

/-- `processTranscriptEvent` (handlers/transcription-handler.js lines 31-60):
when the `Results` chain is present, process each result in order; otherwise
log an error and do nothing else. -/
def processTranscriptEvent (sendPartials : Bool) (e : EngineEvent) : List Act :=
  match eventResults e with
  | some results => results.flatMap (processResult sendPartials)
  | none => [.log .error "Unexpected event structure."]

/-- One item observed while iterating `for await (const event of
transcriptStream)`: either the next event, or the iteration raising a fault. -/
inductive StreamItem
  | event (e : EngineEvent)
  | fault (message : String)
deriving DecidableEq, Repr

/-- `handleTranscriptionError` (handlers/transcription-handler.js lines
68-76): log the error; if the socket is still open, send one generic error
message and close with 1011 (internal error); otherwise do nothing more. -/
def handleTranscriptionError (wsOpen : Bool) (message : String) : List Act :=
  .log .error ("Error in transcription stream: " ++ message) ::
    (if wsOpen then
      [.send (.error "Error in transcription stream"),
       .close 1011 "Internal server error"]
    else [])

/-- `handleTranscriptionStream` (handlers/transcription-handler.js lines
9-22): consume the result stream in order, processing each event; on an
iteration fault, run the error handler and stop consuming. -/
def handleTranscriptionStream (sendPartials wsOpen : Bool) : List StreamItem → List Act
  | [] => []
  | .event e :: rest =>
      processTranscriptEvent sendPartials e ++ handleTranscriptionStream sendPartials wsOpen rest
  | .fault m :: _ => handleTranscriptionError wsOpen m

/-- The client-visible messages among a list of actions. -/
def clientSends (acts : List Act) : List ClientMsg :=
  acts.filterMap fun a => match a with | .send m => some m | _ => none

/-- The close codes among a list of actions, in order. -/
def closeCodes (acts : List Act) : List Nat :=
  acts.filterMap fun a => match a with | .close c _ => some c | _ => none

/-- The error messages sent to the client among a list of actions. -/
def errorSends (acts : List Act) : List String :=
  acts.filterMap fun a => match a with | .send (.error m) => some m | _ => none

/-- How many times the cancellation handle is triggered in a list of actions. -/
def abortCount (acts : List Act) : Nat :=
  acts.countP fun a => match a with | .abortTranscribe => true | _ => false

/- ===================================================================
   Part 3: admission, the connection counter and the startup timeout,
   wss.on('connection', ...) in the server entry point (src/index.js)
   =================================================================== -/

/-- A connection identity (one per socket). -/
abbrev Sid := Nat

/-- Process-wide server state: the mutable `connectionCount` (a JavaScript
number, so modelled as an integer that could in principle go negative), the
sids whose per-connection `'close'` listener — the only place that decrements
the counter — has been registered (registration happens right after the
increment and is never undone), and the multiset of decrements performed so
far, tagged by sid. -/
structure SrvState where
  connectionCount : Int
  registered : List Sid
  decrements : List Sid
deriving DecidableEq, Repr

/-- The server state at process start. -/
def initialSrvState : SrvState := ⟨0, [], []⟩

/-- The admission prefix of the connection handler (server entry point, lines
42-54): at or above the limit, warn and close with 1013 "Server is busy" and
return — no increment, no listener registration; below the limit, increment
the counter and register the session's close listener before any further
processing. -/
def connectionHandler (maxConnections : Nat) (s : SrvState) (sid : Sid) :
    SrvState × List Act :=
  if s.connectionCount ≥ (maxConnections : Int) then
    (s, [.log .warn "Maximum number of connections reached. Rejecting new connection.",
         .close 1013 "Server is busy"])
  else
    ({ connectionCount := s.connectionCount + 1,
       registered := sid :: s.registered,
       decrements := s.decrements },
     [.log .info "New connection"])

/-- The `ws.on('close', ...)` listener (lines 60-66): fires only for sockets
whose session registered it (admitted sessions); it decrements the counter
unconditionally (and aborts the engine request, which does not touch the
counter). -/
def closeListener (s : SrvState) (sid : Sid) : SrvState :=
  if sid ∈ s.registered then
    { s with connectionCount := s.connectionCount - 1,
             decrements := sid :: s.decrements }
  else s

/-- A process-level event: a connection attempt, a socket's `'close'` event
(ws fires it at most once per socket), a socket `'error'` event (lines 69-76:
abort only, no counter change), or the startup timer firing (lines 100-109:
abort/notify only, no counter change). -/
inductive SrvEvent
  | connect (sid : Sid)
  | wsClose (sid : Sid)
  | wsError (sid : Sid)
  | timeoutFire (sid : Sid)
deriving DecidableEq, Repr

/-- Effect of one process-level event on the server state. -/
def srvStep (maxConnections : Nat) (s : SrvState) : SrvEvent → SrvState
  | .connect sid => (connectionHandler maxConnections s sid).1
  | .wsClose sid => closeListener s sid
  | .wsError _ => s
  | .timeoutFire _ => s

/-- Run a process-level trace. -/
def runSrv (maxConnections : Nat) (s : SrvState) : List SrvEvent → SrvState
  | [] => s
  | e :: tr => runSrv maxConnections (srvStep maxConnections s e) tr

/-- The sids of the connection attempts of a trace, in order. -/
def connectSids : List SrvEvent → List Sid :=
  List.filterMap fun e => match e with | .connect sid => some sid | _ => none

/-- The sids of the `'close'` events of a trace, in order. -/
def closeSids : List SrvEvent → List Sid :=
  List.filterMap fun e => match e with | .wsClose sid => some sid | _ => none

/-- Every `'close'` event concerns a socket that connected earlier in the
trace (`cs` accumulates the sids seen connecting so far). -/
def closesAfterConnects (cs : List Sid) : List SrvEvent → Bool
  | [] => true
  | .connect sid :: tr => closesAfterConnects (sid :: cs) tr
  | .wsClose sid :: tr => cs.contains sid && closesAfterConnects cs tr
  | .wsError _ :: tr => closesAfterConnects cs tr
  | .timeoutFire _ :: tr => closesAfterConnects cs tr

/-- A trace is wellformed when each socket connects at most once, fires
`'close'` at most once (the ws library's contract), and closes only after
connecting. -/
def WfTrace (tr : List SrvEvent) : Prop :=
  (connectSids tr).Nodup ∧ (closeSids tr).Nodup ∧ closesAfterConnects [] tr = true

/-- The invariant tying the counter to the sessions: the counter equals the
number of registered sessions minus the number of decrements, each session is
decremented at most once, and only registered sessions are ever decremented. -/
def SrvInv (s : SrvState) : Prop :=
  s.registered.Nodup ∧ s.decrements.Nodup ∧ (∀ x ∈ s.decrements, x ∈ s.registered) ∧
    s.connectionCount = (s.registered.length : Int) - (s.decrements.length : Int)

/-- The startup-timeout callback (server entry point, lines 100-109): if the
cancellation handle has already been triggered, do nothing; otherwise trigger
it, log, and — if the socket is still open — notify the client and close with
1000 (normal closure). -/
def timeoutCallback (aborted wsOpen : Bool) : List Act :=
  if aborted then []
  else
    .abortTranscribe ::
    .log .error "AWS Transcribe request timed out" ::
      (if wsOpen then
        [.send (.error "AWS Transcribe request timed out"),
         .close 1000 "AWS Transcribe request timed out"]
      else [])

/-- How the race between `transcribeClient.send(command, ...)` and the
startup timer resolves for one session. -/
inductive StartRace
  | acceptedFirst (stream : List StreamItem)
  | timerFirst
  | sendFailed (message : String)
deriving Repr

/-- The session's transcribe phase (server entry point, lines 100-136).
`acceptedFirst`: the engine accepts before the timer fires — the timer is
cleared, then the result stream is relayed, and the `finally` clears the
(already cleared) timer again; no further timer exists for the session.
`timerFirst`: the timer callback runs (aborting the request), the aborted
`send` then rejects into the catch block, which logs and — since `ws.close`
was already called by the callback when the socket was open, so
`readyState` is no longer `OPEN` there — sends nothing more unless the
callback did not touch the socket; finally the timer is cleared.
`sendFailed`: the engine rejects the request before the timer fires — the
catch block notifies and closes with 1011 when the socket is open. -/
def sessionTranscribePhase (sendPartials wsOpen aborted : Bool) (race : StartRace) :
    List Act :=
  match race with
  | .acceptedFirst stream =>
      .clearTimer ::
      .log .info "Transcription started successfully" ::
        (handleTranscriptionStream sendPartials wsOpen stream ++ [.clearTimer])
  | .timerFirst =>
      timeoutCallback aborted wsOpen ++
        (.log .error "Error during transcription: request aborted" ::
          (if wsOpen && aborted then
            [.send (.error "Error during transcription"),
             .close 1011 "Internal server error"]
          else [])) ++
      [.clearTimer]
  | .sendFailed m =>
      (.log .error ("Error during transcription: " ++ m) ::
        (if wsOpen then
          [.send (.error "Error during transcription"),
           .close 1011 "Internal server error"]
        else [])) ++
      [.clearTimer]

/-- The inductive invariant of the bridge for a client that sends the binary
frames `bs` in order followed (optionally) by the explicit end-of-stream
frame, with no `'close'` event.  Either the generator has terminated — then
the end frame was sent, everything has been delivered and the output is
exactly `bs` followed by the end marker — or it has not, and the undelivered
events are a suffix of the client's events (`rest` the binary frames still
undelivered, `e₂` whether the end frame is still undelivered), the chunks
yielded so far with the queued and undelivered ones make up exactly `bs`,
and a suspended consumer implies an empty queue and no end flag (whoever
set either of those would have woken it). -/
def BridgeInv (bs : List Chunk) (sendEnd : Bool) (s : BridgeState) : Prop :=
  s.isClosed = false ∧
  ((s.consumer = .done ∧ sendEnd = true ∧ s.pending = [] ∧ s.output = bs ++ [[]]) ∨
   (s.consumer ≠ .done ∧ s.consumer ≠ .waitingDead ∧
    ∃ rest e₂,
      s.pending = rest.map binMsg ++ (if e₂ then [endMsg] else []) ∧
      s.output ++ s.messageQueue ++ rest = bs ∧
      (e₂ = true → sendEnd = true ∧ s.endStreamReceived = false) ∧
      (e₂ = false → s.endStreamReceived = sendEnd ∧ (sendEnd = true → rest = [])) ∧
      (s.consumer = .waiting → s.messageQueue = [] ∧ s.endStreamReceived = false)))

/- ===================================================================
   Helper lemmas
   =================================================================== -/

theorem clientSends_append (a b : List Act) :
    clientSends (a ++ b) = clientSends a ++ clientSends b :=
  List.filterMap_append a b _

theorem closeCodes_append (a b : List Act) :
    closeCodes (a ++ b) = closeCodes a ++ closeCodes b :=
  List.filterMap_append a b _

theorem errorSends_append (a b : List Act) :
    errorSends (a ++ b) = errorSends a ++ errorSends b :=
  List.filterMap_append a b _

theorem abortCount_append (a b : List Act) :
    abortCount (a ++ b) = abortCount a + abortCount b :=
  List.countP_append _ a b

theorem errorSends_processResult (sp : Bool) (r : TResult) :
    errorSends (processResult sp r) = [] := by
  simp only [processResult, errorSends]
  split_ifs <;> simp

theorem closeCodes_processResult (sp : Bool) (r : TResult) :
    closeCodes (processResult sp r) = [] := by
  simp only [processResult, closeCodes]
  split_ifs <;> simp

theorem abortCount_processResult (sp : Bool) (r : TResult) :
    abortCount (processResult sp r) = 0 := by
  simp only [processResult, abortCount]
  split_ifs <;> simp

theorem errorSends_processTranscriptEvent (sp : Bool) (e : EngineEvent) :
    errorSends (processTranscriptEvent sp e) = [] := by
  unfold processTranscriptEvent
  cases eventResults e with
  | none => simp [errorSends]
  | some rs =>
      induction rs with
      | nil => simp [errorSends]
      | cons r rs ih => simp [List.flatMap_cons, errorSends_append, errorSends_processResult, ih]

theorem closeCodes_processTranscriptEvent (sp : Bool) (e : EngineEvent) :
    closeCodes (processTranscriptEvent sp e) = [] := by
  unfold processTranscriptEvent
  cases eventResults e with
  | none => simp [closeCodes]
  | some rs =>
      induction rs with
      | nil => simp [closeCodes]
      | cons r rs ih => simp [List.flatMap_cons, closeCodes_append, closeCodes_processResult, ih]

theorem abortCount_processTranscriptEvent (sp : Bool) (e : EngineEvent) :
    abortCount (processTranscriptEvent sp e) = 0 := by
  unfold processTranscriptEvent
  cases eventResults e with
  | none => simp [abortCount]
  | some rs =>
      induction rs with
      | nil => simp [abortCount]
      | cons r rs ih => simp [List.flatMap_cons, abortCount_append, abortCount_processResult, ih]

theorem abortCount_handleTranscriptionStream (sp o : Bool) (stream : List StreamItem) :
    abortCount (handleTranscriptionStream sp o stream) = 0 := by
  induction stream with
  | nil => simp [handleTranscriptionStream, abortCount]
  | cons it rest ih =>
      cases it with
      | event e =>
          simp [handleTranscriptionStream, abortCount_append, abortCount_processTranscriptEvent, ih]
      | fault m =>
          cases o <;> simp [handleTranscriptionStream, handleTranscriptionError, abortCount]

theorem closeCodes_handleTranscriptionStream_no_1000 (sp o : Bool) (stream : List StreamItem) :
    (closeCodes (handleTranscriptionStream sp o stream)).count 1000 = 0 := by
  induction stream with
  | nil => simp [handleTranscriptionStream, closeCodes]
  | cons it rest ih =>
      cases it with
      | event e =>
          simp [handleTranscriptionStream, closeCodes_append, closeCodes_processTranscriptEvent, ih]
      | fault m =>
          cases o <;> simp [handleTranscriptionStream, handleTranscriptionError, closeCodes]

/- ===================================================================
   Claim theorems
   =================================================================== -/

/-- C2: the claim says that when the connection closes while the consumer is
suspended waiting for data, the bridge wakes the consumer so the pull loop
resumes and the sequence terminates.  The code does mark the
connection-closed flag, but `closeHandler` clears `resolvePromise` without
invoking it, so the suspended consumer is never woken: after the pull loop
suspends (one consume step on an empty queue) and the `'close'` event is
delivered, every further schedule leaves the state unchanged — the sequence
never terminates. -/
theorem audioStream_close_does_not_wake_suspended_consumer :
    run (initState (clientEvents [] false true)) [Step.consume, Step.deliver]
      = ⟨[], false, true, .waitingDead, [], []⟩ ∧
    (∀ σ : List Step,
      run ⟨[], false, true, .waitingDead, [], []⟩ σ
        = ⟨[], false, true, .waitingDead, [], []⟩) := by
  refine ⟨rfl, ?_⟩
  intro σ
  induction σ with
  | nil => rfl
  | cons a σ ih =>
      have h : step a (⟨[], false, true, .waitingDead, [], []⟩ : BridgeState)
          = ⟨[], false, true, .waitingDead, [], []⟩ := by
        cases a <;> rfl
      show run (step a _) σ = _
      rw [h]
      exact ih

/-- C3 counterexample: a text frame whose content is not the distinguished
`END_OF_STREAM` marker nevertheless ends the audio sequence: delivering the
frame `"hello"` and letting the pull loop run terminates the generator with
the zero-length end marker, although no end-of-stream frame was sent. -/
theorem textFrame_ends_stream :
    (run (initState [NetEvent.msg (.text "hello")]) [Step.deliver, Step.consume]).consumer
        = Consumer.done ∧
    (run (initState [NetEvent.msg (.text "hello")]) [Step.deliver, Step.consume]).output
        = [([] : Chunk)] ∧
    (("hello" : String) == "END_OF_STREAM") = false :=
  ⟨rfl, rfl, by decide⟩

/-- C3 (amended): receipt of a frame that is not a binary audio buffer never
queues audio and never drops queued audio or output, but it is treated as
the explicit end-of-stream signal whatever its content: the end-of-stream
flag is set (and a suspended consumer is woken), so an arbitrary text frame
ends the audio sequence with the end marker exactly as `END_OF_STREAM`
does. -/
theorem nonBinaryFrame_is_end_of_stream (txt : String) (s : BridgeState) :
    (messageHandler (.text txt) s).messageQueue = s.messageQueue ∧
    (messageHandler (.text txt) s).output = s.output ∧
    (messageHandler (.text txt) s).endStreamReceived = true ∧
    (messageHandler (.text txt) s).isClosed = s.isClosed ∧
    (messageHandler (.text txt) s).consumer = wake s.consumer ∧
    (run (initState [NetEvent.msg (.text txt)]) [Step.deliver, Step.consume]).consumer
        = Consumer.done ∧
    (run (initState [NetEvent.msg (.text txt)]) [Step.deliver, Step.consume]).output
        = [([] : Chunk)] :=
  ⟨rfl, rfl, rfl, rfl, rfl, rfl, rfl⟩

/-- C4: for a result whose best alternative carries non-empty text, a final
result is forwarded as a `{ transcript }` message regardless of the
partial-results setting, and a partial result is forwarded as a
`{ partialTranscript }` message exactly when `sendPartials` is true and is
silently skipped (no client-visible message) otherwise. -/
theorem relay_final_always_partial_gated (r : TResult) (t : String) (sendPartials : Bool)
    (ht : extractTranscript r = some t) (hne : t ≠ "") :
    clientSends (processResult sendPartials r) =
      (if r.isPartial then
        (if sendPartials then [ClientMsg.partialTranscript t] else [])
       else [ClientMsg.transcript t]) := by
  cases hp : r.isPartial <;> cases hsp : sendPartials <;>
    simp [processResult, ht, jsTruthy, hne, clientSends, hp, hsp]

theorem relay_final_always_partial_gated_witness :
    clientSends (processResult false ⟨[some "hello"], false⟩) =
      (if (⟨[some "hello"], false⟩ : TResult).isPartial then
        (if false then [ClientMsg.partialTranscript "hello"] else [])
       else [ClientMsg.transcript "hello"]) :=
  relay_final_always_partial_gated ⟨[some "hello"], false⟩ "hello" false rfl (by decide)

/-- C5: a result from which no text can be extracted (no alternative, or an
alternative whose transcript is absent or empty) only logs a warning — no
message is ever sent for it — and the surrounding loop continues with the
remaining results of the event. -/
theorem relay_no_transcript_logged_skipped (sendPartials : Bool) (r : TResult)
    (rs₁ rs₂ : List TResult) (e : EngineEvent)
    (hr : jsTruthy (extractTranscript r) = false)
    (he : eventResults e = some (rs₁ ++ r :: rs₂)) :
    processResult sendPartials r = [Act.log .warn "Received result without transcript."] ∧
    clientSends (processResult sendPartials r) = [] ∧
    processTranscriptEvent sendPartials e =
      rs₁.flatMap (processResult sendPartials)
        ++ [Act.log .warn "Received result without transcript."]
        ++ rs₂.flatMap (processResult sendPartials) := by
  have h1 : processResult sendPartials r
      = [Act.log .warn "Received result without transcript."] := by
    simp [processResult, hr]
  refine ⟨h1, by simp [h1, clientSends], ?_⟩
  simp [processTranscriptEvent, he, List.flatMap_append, List.flatMap_cons, h1]

theorem relay_no_transcript_logged_skipped_witness :
    processResult true ⟨[], true⟩ = [Act.log .warn "Received result without transcript."] ∧
    clientSends (processResult true ⟨[], true⟩) = [] ∧
    processTranscriptEvent true ⟨some ⟨some ⟨some ([] ++ (⟨[], true⟩ : TResult) :: [])⟩⟩⟩ =
      ([] : List TResult).flatMap (processResult true)
        ++ [Act.log .warn "Received result without transcript."]
        ++ ([] : List TResult).flatMap (processResult true) :=
  relay_no_transcript_logged_skipped true ⟨[], true⟩ [] []
    ⟨some ⟨some ⟨some ([] ++ (⟨[], true⟩ : TResult) :: [])⟩⟩⟩ rfl rfl

/-- C10: an engine event whose payload lacks the `Results` chain only logs an
error — it produces no client-visible message — and the stream loop
continues with the remaining events. -/
theorem relay_malformed_event_skipped (sendPartials wsOpen : Bool) (e : EngineEvent)
    (rest : List StreamItem) (he : eventResults e = none) :
    processTranscriptEvent sendPartials e = [Act.log .error "Unexpected event structure."] ∧
    clientSends (processTranscriptEvent sendPartials e) = [] ∧
    handleTranscriptionStream sendPartials wsOpen (.event e :: rest) =
      Act.log .error "Unexpected event structure."
        :: handleTranscriptionStream sendPartials wsOpen rest := by
  have h1 : processTranscriptEvent sendPartials e
      = [Act.log .error "Unexpected event structure."] := by
    simp [processTranscriptEvent, he]
  exact ⟨h1, by simp [h1, clientSends], by simp [handleTranscriptionStream, h1]⟩

theorem relay_malformed_event_skipped_witness :
    processTranscriptEvent true ⟨none⟩ = [Act.log .error "Unexpected event structure."] ∧
    clientSends (processTranscriptEvent true ⟨none⟩) = [] ∧
    handleTranscriptionStream true true (.event ⟨none⟩ :: []) =
      Act.log .error "Unexpected event structure."
        :: handleTranscriptionStream true true [] :=
  relay_malformed_event_skipped true true ⟨none⟩ [] rfl

/-- C9: when iterating the engine's result stream raises a fault, the relay
processes exactly the events before the fault (everything after the fault is
never consumed — the result does not depend on `post`), and then: if the
socket is still open, exactly one generic error message is sent and the
connection is closed with 1011 (internal error); if it is not open, no
message is sent and no close is attempted. -/
theorem relay_fault_single_error_then_close (sendPartials wsOpen : Bool)
    (es : List EngineEvent) (m : String) (post : List StreamItem) :
    handleTranscriptionStream sendPartials wsOpen
        (es.map StreamItem.event ++ StreamItem.fault m :: post) =
      es.flatMap (processTranscriptEvent sendPartials) ++ handleTranscriptionError wsOpen m ∧
    errorSends (handleTranscriptionStream sendPartials wsOpen
        (es.map StreamItem.event ++ StreamItem.fault m :: post)) =
      (if wsOpen then ["Error in transcription stream"] else []) ∧
    closeCodes (handleTranscriptionStream sendPartials wsOpen
        (es.map StreamItem.event ++ StreamItem.fault m :: post)) =
      (if wsOpen then [1011] else []) := by
  have h1 : ∀ es' : List EngineEvent,
      handleTranscriptionStream sendPartials wsOpen
          (es'.map StreamItem.event ++ StreamItem.fault m :: post) =
        es'.flatMap (processTranscriptEvent sendPartials)
          ++ handleTranscriptionError wsOpen m := by
    intro es'
    induction es' with
    | nil => simp [handleTranscriptionStream]
    | cons e rest ih => simp [handleTranscriptionStream, ih, List.flatMap_cons]
  have h2 : ∀ es' : List EngineEvent,
      errorSends (es'.flatMap (processTranscriptEvent sendPartials)) = [] := by
    intro es'
    induction es' with
    | nil => simp [errorSends]
    | cons e rest ih =>
        simp [List.flatMap_cons, errorSends_append, errorSends_processTranscriptEvent, ih]
  have h3 : ∀ es' : List EngineEvent,
      closeCodes (es'.flatMap (processTranscriptEvent sendPartials)) = [] := by
    intro es'
    induction es' with
    | nil => simp [closeCodes]
    | cons e rest ih =>
        simp [List.flatMap_cons, closeCodes_append, closeCodes_processTranscriptEvent, ih]
  refine ⟨h1 es, ?_, ?_⟩
  · rw [h1 es, errorSends_append, h2 es]
    cases wsOpen <;> simp [handleTranscriptionError, errorSends]
  · rw [h1 es, closeCodes_append, h3 es]
    cases wsOpen <;> simp [handleTranscriptionError, closeCodes]

/-- C8: the startup timeout raced against the engine's acceptance.  If the
timer fires first (no prior abort, socket open), the session triggers the
cancellation handle, informs the client, and the only close of the session
is the normal closure 1000 — not an internal error.  If acceptance happens
first, the session's very first action clears the timer, and the rest of the
session never triggers the cancellation handle by timeout and never closes
with 1000: no time-based termination applies any more. -/
theorem startup_timeout_race (sendPartials wsOpen aborted : Bool)
    (stream : List StreamItem) :
    sessionTranscribePhase sendPartials true false .timerFirst =
      [Act.abortTranscribe,
       Act.log .error "AWS Transcribe request timed out",
       Act.send (.error "AWS Transcribe request timed out"),
       Act.close 1000 "AWS Transcribe request timed out",
       Act.log .error "Error during transcription: request aborted",
       Act.clearTimer] ∧
    closeCodes (sessionTranscribePhase sendPartials true false .timerFirst) = [1000] ∧
    (sessionTranscribePhase sendPartials wsOpen aborted (.acceptedFirst stream)).head?
      = some Act.clearTimer ∧
    abortCount (sessionTranscribePhase sendPartials wsOpen aborted (.acceptedFirst stream)) = 0 ∧
    (closeCodes (sessionTranscribePhase sendPartials wsOpen aborted
        (.acceptedFirst stream))).count 1000 = 0 := by
  refine ⟨rfl, rfl, rfl, ?_, ?_⟩
  · show abortCount (Act.clearTimer :: Act.log .info "Transcription started successfully" ::
        (handleTranscriptionStream sendPartials wsOpen stream ++ [Act.clearTimer])) = 0
    simp [abortCount, List.countP_append]
    have := abortCount_handleTranscriptionStream sendPartials wsOpen stream
    simpa [abortCount] using this
  · show (closeCodes (Act.clearTimer :: Act.log .info "Transcription started successfully" ::
        (handleTranscriptionStream sendPartials wsOpen stream ++ [Act.clearTimer]))).count 1000 = 0
    simp [closeCodes, List.filterMap_append]
    have := closeCodes_handleTranscriptionStream_no_1000 sendPartials wsOpen stream
    simpa [closeCodes] using this

/-- C6: with the limit set to `K`, a connection attempt made while the count
has reached `K` is refused with the distinct "Server is busy" close (1013)
and no side effects — the state (counter, registrations) is untouched; while
the count is below `K`, the attempt is admitted and the counter incremented
(with the close listener registered) before any further processing; and
after one of the `K` admitted sessions closes, a new attempt is admitted. -/
theorem admission_boundary (K : Nat) (s : SrvState) (sid sid' : Sid) :
    (s.connectionCount ≥ (K : Int) →
      connectionHandler K s sid =
        (s, [Act.log .warn "Maximum number of connections reached. Rejecting new connection.",
             Act.close 1013 "Server is busy"])) ∧
    (s.connectionCount < (K : Int) →
      connectionHandler K s sid =
        ({ connectionCount := s.connectionCount + 1,
           registered := sid :: s.registered,
           decrements := s.decrements },
         [Act.log .info "New connection"])) ∧
    (s.connectionCount = (K : Int) → sid' ∈ s.registered →
      (connectionHandler K (closeListener s sid') sid).1 =
        { connectionCount := (K : Int),
          registered := sid :: s.registered,
          decrements := sid' :: s.decrements }) := by
  refine ⟨?_, ?_, ?_⟩
  · intro h
    simp [connectionHandler, h]
  · intro h
    simp [connectionHandler, not_le.mpr h]
  · intro hK hmem
    have hcl : closeListener s sid' =
        { s with connectionCount := s.connectionCount - 1,
                 decrements := sid' :: s.decrements } := by
      simp [closeListener, hmem]
    rw [hcl]
    have hlt : ¬ (s.connectionCount - 1 ≥ (K : Int)) := by
      rw [hK]; omega
    simp [connectionHandler, hlt, hK]

theorem admission_boundary_witness :
    connectionHandler 1 ⟨1, [7], []⟩ 8 =
      (⟨1, [7], []⟩,
       [Act.log .warn "Maximum number of connections reached. Rejecting new connection.",
        Act.close 1013 "Server is busy"]) ∧
    connectionHandler 1 ⟨0, [], []⟩ 5 =
      (⟨0 + 1, [5], []⟩, [Act.log .info "New connection"]) ∧
    (connectionHandler 1 (closeListener ⟨1, [7], []⟩ 7) 8).1 = ⟨1, [8, 7], [7]⟩ := by
  refine ⟨?_, ?_, ?_⟩
  · exact (admission_boundary 1 ⟨1, [7], []⟩ 8 7).1 (by decide)
  · exact (admission_boundary 1 ⟨0, [], []⟩ 5 7).2.1 (by decide)
  · have := (admission_boundary 1 ⟨1, [7], []⟩ 8 7).2.2 (by decide) (by decide)
    simpa using this

theorem run_append (s : BridgeState) (σ₁ σ₂ : List Step) :
    run s (σ₁ ++ σ₂) = run (run s σ₁) σ₂ := by
  induction σ₁ generalizing s with
  | nil => rfl
  | cons a σ ih => simpa [run] using ih (step a s)

theorem BridgeInv_step (bs : List Chunk) (sendEnd : Bool) (a : Step) (s : BridgeState)
    (h : BridgeInv bs sendEnd s) : BridgeInv bs sendEnd (step a s) := by
  obtain ⟨q, esr, cl, c, out, pend⟩ := s
  obtain ⟨hcl, hrest⟩ := h
  dsimp only at hcl
  subst hcl
  rcases hrest with ⟨hdone, hse, hpend, hout⟩ | ⟨hnd, hnwd, rest, e₂, hpend, hsum, he₂t, he₂f, hwait⟩
  · dsimp only at hdone hse hpend hout
    subst hdone hse hpend hout
    cases a
    · exact ⟨rfl, Or.inl ⟨rfl, rfl, rfl, rfl⟩⟩
    · exact ⟨rfl, Or.inl ⟨rfl, rfl, rfl, rfl⟩⟩
  · dsimp only at hnd hnwd hpend hsum hwait
    subst hpend
    have hc : c = .running ∨ c = .waiting := by
      cases c
      · exact Or.inl rfl
      · exact Or.inr rfl
      · exact absurd rfl hnwd
      · exact absurd rfl hnd
    cases a
    · -- deliver the next pending event
      rcases rest with _ | ⟨d, rest'⟩
      · cases e₂
        · -- no pending event: the step is a no-op
          exact ⟨rfl, Or.inr ⟨hnd, hnwd, [], false, rfl, hsum, he₂t, he₂f, hwait⟩⟩
        · -- the pending end-of-stream frame is delivered
          obtain ⟨hse, hesr⟩ := he₂t rfl
          subst hesr
          have hwk : wake c = .running := by rcases hc with hc | hc <;> simp [hc, wake]
          refine ⟨rfl, Or.inr ⟨?_, ?_, [], false, rfl, ?_, ?_, ?_, ?_⟩⟩
          · show wake c ≠ .done
            simp [hwk]
          · show wake c ≠ .waitingDead
            simp [hwk]
          · simpa using hsum
          · simp
          · intro
            exact ⟨hse.symm, fun _ => rfl⟩
          · show wake c = .waiting → _
            simp [hwk]
      · -- a pending binary frame is delivered
        have hwk : wake c = .running := by rcases hc with hc | hc <;> simp [hc, wake]
        refine ⟨rfl, Or.inr ⟨?_, ?_, rest', e₂, rfl, ?_, he₂t, ?_, ?_⟩⟩
        · show wake c ≠ .done
          simp [hwk]
        · show wake c ≠ .waitingDead
          simp [hwk]
        · show out ++ (q ++ [d]) ++ rest' = bs
          simpa [List.append_assoc] using hsum
        · intro hf
          obtain ⟨h1, h2⟩ := he₂f hf
          exact ⟨h1, fun hse => absurd (h2 hse) (by simp)⟩
        · show wake c = .waiting → _
          simp [hwk]
    · -- one iteration of the pull loop
      rcases hc with hc | hc
      · subst hc
        rcases q with _ | ⟨d, q'⟩
        · cases hesr : esr
          · -- empty queue, no end flag, not closed: the loop suspends
            subst hesr
            exact ⟨rfl, Or.inr ⟨by simp [step, consumerStep], by simp [step, consumerStep],
              rest, e₂, rfl, hsum, he₂t, he₂f, fun _ => ⟨rfl, rfl⟩⟩⟩
          · -- empty queue, end flag set: yield the end marker and terminate
            subst hesr
            have he₂ : e₂ = false := by
              cases e₂
              · rfl
              · exact absurd (he₂t rfl).2 (by simp)
            subst he₂
            obtain ⟨hse, hrest⟩ := he₂f rfl
            have hbs : rest = [] := hrest hse.symm
            subst hbs
            refine ⟨rfl, Or.inl ⟨rfl, hse.symm, by simp [step, consumerStep], ?_⟩⟩
            show out ++ [[]] = bs ++ [[]]
            have : out = bs := by simpa using hsum
            rw [this]
        · -- non-empty queue: dequeue and yield the head chunk
          refine ⟨rfl, Or.inr ⟨by simp [step, consumerStep], by simp [step, consumerStep],
            rest, e₂, rfl, ?_, he₂t, he₂f, by simp [step, consumerStep]⟩⟩
          show out ++ [d] ++ q' ++ rest = bs
          simpa [List.append_assoc] using hsum
      · -- the consumer is suspended: the step is a no-op
        subst hc
        exact ⟨rfl, Or.inr ⟨hnd, hnwd, rest, e₂, rfl, hsum, he₂t, he₂f, hwait⟩⟩

theorem BridgeInv_run (bs : List Chunk) (sendEnd : Bool) (σ : List Step) (s : BridgeState)
    (h : BridgeInv bs sendEnd s) : BridgeInv bs sendEnd (run s σ) := by
  induction σ generalizing s with
  | nil => exact h
  | cons a σ ih => exact ih (step a s) (BridgeInv_step bs sendEnd a s h)

theorem BridgeInv_init (bs : List Chunk) (sendEnd : Bool) :
    BridgeInv bs sendEnd (initState (clientEvents bs sendEnd false)) := by
  refine ⟨rfl, Or.inr ⟨by simp [initState], by simp [initState], bs, sendEnd, ?_,
    by simp [initState], ?_, ?_, by simp [initState]⟩⟩
  · show clientEvents bs sendEnd false = bs.map binMsg ++ (if sendEnd then [endMsg] else [])
    simp [clientEvents]
  · exact fun h => ⟨h, rfl⟩
  · intro hf
    subst hf
    exact ⟨rfl, fun h => absurd h (by decide)⟩

theorem deliver_binaries (bs : List Chunk) :
    ∀ (q out : List Chunk) (esr : Bool) (tail : List NetEvent),
    run ⟨q, esr, false, .running, out, bs.map binMsg ++ tail⟩ (List.replicate bs.length .deliver)
      = ⟨q ++ bs, esr, false, .running, out, tail⟩ := by
  induction bs with
  | nil => intro q out esr tail; simp [run]
  | cons d bs ih =>
      intro q out esr tail
      show run (step .deliver _) (List.replicate bs.length .deliver) = _
      have h1 : step .deliver ⟨q, esr, false, .running, out, (d :: bs).map binMsg ++ tail⟩
          = ⟨q ++ [d], esr, false, .running, out, bs.map binMsg ++ tail⟩ := rfl
      rw [h1, ih]
      simp

theorem drain_end (q : List Chunk) :
    ∀ out : List Chunk,
    run ⟨q, true, false, .running, out, []⟩ (List.replicate (q.length + 1) .consume)
      = ⟨[], true, false, .done, out ++ q ++ [[]], []⟩ := by
  induction q with
  | nil => intro out; simp [run, step, consumerStep]
  | cons c q ih =>
      intro out
      show run (step .consume _) (List.replicate (q.length + 1) .consume) = _
      have h1 : step .consume ⟨c :: q, true, false, .running, out, []⟩
          = ⟨q, true, false, .running, out ++ [c], []⟩ := rfl
      rw [h1, ih]
      simp

/-- C1: order preservation.  For a client that sends the binary frames `bs`
in order (optionally followed by the explicit end-of-stream frame), under
EVERY interleaving of frame deliveries and pull-loop iterations: if the
generator terminates, its yielded sequence is exactly `bs` — no chunk
dropped, duplicated or reordered — followed by the zero-length end marker
exactly when the end-of-stream frame was sent (termination without a close
only happens after the end frame).  Moreover the fully back-to-back
schedule (all frames delivered before the consumer resumes) does terminate
with exactly that output. -/
theorem audioStream_order_preservation :
    (∀ (bs : List Chunk) (sendEnd : Bool) (σ : List Step),
        (run (initState (clientEvents bs sendEnd false)) σ).consumer = Consumer.done →
        (run (initState (clientEvents bs sendEnd false)) σ).output
          = bs ++ (if sendEnd then [([] : Chunk)] else [])) ∧
    (∀ bs : List Chunk,
        run (initState (clientEvents bs true false))
            (canonicalSchedule (clientEvents bs true false) bs)
          = ⟨[], true, false, .done, bs ++ [[]], []⟩) := by
  constructor
  · intro bs sendEnd σ hdone
    have hinv := BridgeInv_run bs sendEnd σ _ (BridgeInv_init bs sendEnd)
    rcases hinv with ⟨-, ⟨-, hse, -, hout⟩ | ⟨hnd, -⟩⟩
    · rw [hout, hse]
      simp
    · exact absurd hdone hnd
  · intro bs
    have hlen : (clientEvents bs true false).length = bs.length + 1 := by
      simp [clientEvents]
    have hpend : clientEvents bs true false = bs.map binMsg ++ [endMsg] := by
      simp [clientEvents]
    show run (initState (clientEvents bs true false))
        (List.replicate (clientEvents bs true false).length .deliver
          ++ List.replicate (bs.length + 1) .consume) = _
    rw [run_append, hlen, List.replicate_succ', run_append]
    have h1 : run (initState (clientEvents bs true false)) (List.replicate bs.length .deliver)
        = ⟨bs, false, false, .running, [], [endMsg]⟩ := by
      show run ⟨[], false, false, .running, [], clientEvents bs true false⟩ _ = _
      rw [hpend]
      simpa using deliver_binaries bs [] [] false [endMsg]
    rw [h1]
    have h2 : run (⟨bs, false, false, .running, [], [endMsg]⟩ : BridgeState) [.deliver]
        = ⟨bs, true, false, .running, [], []⟩ := rfl
    rw [h2]
    simpa using drain_end bs []

theorem audioStream_order_preservation_witness :
    (run (initState (clientEvents [[1], [2], [3]] true false))
        (canonicalSchedule (clientEvents [[1], [2], [3]] true false) [[1], [2], [3]])).output
      = [[1], [2], [3]] ++ (if true then [([] : Chunk)] else []) :=
  audioStream_order_preservation.1 [[1], [2], [3]] true
    (canonicalSchedule (clientEvents [[1], [2], [3]] true false) [[1], [2], [3]]) (by decide)

theorem runSrv_append (K : Nat) (s : SrvState) (l₁ l₂ : List SrvEvent) :
    runSrv K s (l₁ ++ l₂) = runSrv K (runSrv K s l₁) l₂ := by
  induction l₁ generalizing s with
  | nil => rfl
  | cons e l ih => simpa [runSrv] using ih (srvStep K s e)

theorem connectSids_append (l₁ l₂ : List SrvEvent) :
    connectSids (l₁ ++ l₂) = connectSids l₁ ++ connectSids l₂ :=
  List.filterMap_append _ _ _

theorem closeSids_append (l₁ l₂ : List SrvEvent) :
    closeSids (l₁ ++ l₂) = closeSids l₁ ++ closeSids l₂ :=
  List.filterMap_append _ _ _

theorem connectSids_cons_connect (sid : Sid) (l : List SrvEvent) :
    connectSids (.connect sid :: l) = sid :: connectSids l := rfl

theorem connectSids_cons_wsClose (sid : Sid) (l : List SrvEvent) :
    connectSids (.wsClose sid :: l) = connectSids l := rfl

theorem connectSids_cons_wsError (sid : Sid) (l : List SrvEvent) :
    connectSids (.wsError sid :: l) = connectSids l := rfl

theorem connectSids_cons_timeoutFire (sid : Sid) (l : List SrvEvent) :
    connectSids (.timeoutFire sid :: l) = connectSids l := rfl

theorem closeSids_cons_connect (sid : Sid) (l : List SrvEvent) :
    closeSids (.connect sid :: l) = closeSids l := rfl

theorem closeSids_cons_wsClose (sid : Sid) (l : List SrvEvent) :
    closeSids (.wsClose sid :: l) = sid :: closeSids l := rfl

theorem closeSids_cons_wsError (sid : Sid) (l : List SrvEvent) :
    closeSids (.wsError sid :: l) = closeSids l := rfl

theorem closeSids_cons_timeoutFire (sid : Sid) (l : List SrvEvent) :
    closeSids (.timeoutFire sid :: l) = closeSids l := rfl

theorem mem_connectSids (sid : Sid) (l : List SrvEvent) :
    sid ∈ connectSids l ↔ SrvEvent.connect sid ∈ l := by
  induction l with
  | nil => simp [connectSids]
  | cons e l ih =>
      cases e <;>
        simp [connectSids_cons_connect, connectSids_cons_wsClose, connectSids_cons_wsError,
          connectSids_cons_timeoutFire, ih]

theorem srvStep_registered_subset (K : Nat) (s : SrvState) (e : SrvEvent) :
    s.registered ⊆ (srvStep K s e).registered := by
  cases e with
  | connect sid =>
      show s.registered ⊆ (connectionHandler K s sid).1.registered
      unfold connectionHandler
      split_ifs
      · exact fun x hx => hx
      · exact fun x hx => List.mem_cons_of_mem _ hx
  | wsClose sid =>
      show s.registered ⊆ (closeListener s sid).registered
      unfold closeListener
      split_ifs <;> exact fun x hx => hx
  | wsError sid => exact fun x hx => hx
  | timeoutFire sid => exact fun x hx => hx

theorem runSrv_registered_subset (K : Nat) (l : List SrvEvent) (s : SrvState) :
    s.registered ⊆ (runSrv K s l).registered := by
  induction l generalizing s with
  | nil => exact fun x hx => hx
  | cons e l ih =>
      exact fun x hx => ih (srvStep K s e) (srvStep_registered_subset K s e hx)

theorem srvStep_decrements_subset (K : Nat) (s : SrvState) (e : SrvEvent) :
    s.decrements ⊆ (srvStep K s e).decrements := by
  cases e with
  | connect sid =>
      show s.decrements ⊆ (connectionHandler K s sid).1.decrements
      unfold connectionHandler
      split_ifs
      · exact fun x hx => hx
      · exact fun x hx => hx
  | wsClose sid =>
      show s.decrements ⊆ (closeListener s sid).decrements
      unfold closeListener
      split_ifs
      · exact fun x hx => List.mem_cons_of_mem _ hx
      · exact fun x hx => hx
  | wsError sid => exact fun x hx => hx
  | timeoutFire sid => exact fun x hx => hx

theorem runSrv_decrements_subset (K : Nat) (l : List SrvEvent) (s : SrvState) :
    s.decrements ⊆ (runSrv K s l).decrements := by
  induction l generalizing s with
  | nil => exact fun x hx => hx
  | cons e l ih =>
      exact fun x hx => ih (srvStep K s e) (srvStep_decrements_subset K s e hx)

theorem runSrv_registered_source (K : Nat) (l : List SrvEvent) (s : SrvState) (sid : Sid)
    (h : sid ∈ (runSrv K s l).registered) :
    sid ∈ s.registered ∨ SrvEvent.connect sid ∈ l := by
  induction l generalizing s with
  | nil => exact Or.inl h
  | cons e l ih =>
      rcases ih (srvStep K s e) h with h' | h'
      · cases e with
        | connect sid' =>
            by_cases hc : s.connectionCount ≥ (K : Int)
            · rw [show srvStep K s (.connect sid') = s by
                simp [srvStep, connectionHandler, hc]] at h'
              exact Or.inl h'
            · rw [show (srvStep K s (.connect sid')).registered = sid' :: s.registered by
                simp [srvStep, connectionHandler, hc]] at h'
              rcases List.mem_cons.mp h' with h'' | h''
              · subst h''
                exact Or.inr (List.mem_cons_self _ _)
              · exact Or.inl h''
        | wsClose sid' =>
            have : (srvStep K s (.wsClose sid')).registered = s.registered := by
              show (closeListener s sid').registered = s.registered
              unfold closeListener
              split_ifs <;> rfl
            rw [this] at h'
            exact Or.inl h'
        | wsError sid' => exact Or.inl h'
        | timeoutFire sid' => exact Or.inl h'
      · exact Or.inr (List.mem_cons_of_mem _ h')

theorem runSrv_closed_decrements (K : Nat) (l : List SrvEvent) (s : SrvState) (sid : Sid)
    (hreg : sid ∈ s.registered) (hcl : SrvEvent.wsClose sid ∈ l) :
    sid ∈ (runSrv K s l).decrements := by
  induction l generalizing s with
  | nil => exact absurd hcl (List.not_mem_nil _)
  | cons e l ih =>
      rcases List.mem_cons.mp hcl with he | he
      · rw [← he]
        have hdec : sid ∈ (srvStep K s (.wsClose sid)).decrements := by
          show sid ∈ (closeListener s sid).decrements
          simp [closeListener, hreg]
        exact runSrv_decrements_subset K l _ hdec
      · exact ih (srvStep K s e) (srvStep_registered_subset K s e hreg) he

theorem runSrv_cons (K : Nat) (s : SrvState) (e : SrvEvent) (l : List SrvEvent) :
    runSrv K s (e :: l) = runSrv K (srvStep K s e) l := rfl

theorem srvInv_initial : SrvInv initialSrvState :=
  ⟨List.nodup_nil, List.nodup_nil, by simp [initialSrvState], by simp [initialSrvState]⟩

theorem srvInv_nonneg (s : SrvState) (h : SrvInv s) : 0 ≤ s.connectionCount := by
  obtain ⟨hrn, hdn, hsub, hcount⟩ := h
  have hle : s.decrements.length ≤ s.registered.length :=
    (hdn.subperm fun x hx => hsub x hx).length_le
  rw [hcount]
  omega

theorem runSrv_inv (l : List SrvEvent) (K : Nat) (s : SrvState)
    (hcn : (connectSids l).Nodup) (hln : (closeSids l).Nodup)
    (hcr : ∀ x ∈ connectSids l, x ∉ s.registered)
    (hld : ∀ x ∈ closeSids l, x ∉ s.decrements)
    (hinv : SrvInv s) : SrvInv (runSrv K s l) := by
  induction l generalizing s with
  | nil => exact hinv
  | cons e l ih =>
      cases e with
      | connect sid =>
          rw [connectSids_cons_connect] at hcn hcr
          rw [closeSids_cons_connect] at hln hld
          obtain ⟨hsid, hcn'⟩ := List.nodup_cons.mp hcn
          by_cases hc : s.connectionCount ≥ (K : Int)
          · rw [runSrv_cons,
              show srvStep K s (.connect sid) = s by simp [srvStep, connectionHandler, hc]]
            exact ih s hcn' hln (fun x hx => hcr x (List.mem_cons_of_mem _ hx)) hld hinv
          · have hstep : srvStep K s (.connect sid) =
                ⟨s.connectionCount + 1, sid :: s.registered, s.decrements⟩ := by
              simp [srvStep, connectionHandler, hc]
            rw [runSrv_cons, hstep]
            obtain ⟨hrn, hdn, hsub, hcount⟩ := hinv
            refine ih _ hcn' hln ?_ hld ⟨?_, hdn, ?_, ?_⟩
            · intro x hx
              have h1 : x ∉ s.registered := hcr x (List.mem_cons_of_mem _ hx)
              have h2 : x ≠ sid := fun h => hsid (h ▸ hx)
              simp [h2, h1]
            · exact List.nodup_cons.mpr ⟨hcr sid (List.mem_cons_self _ _), hrn⟩
            · exact fun x hx => List.mem_cons_of_mem _ (hsub x hx)
            · show s.connectionCount + 1 = ((sid :: s.registered).length : Int) - _
              rw [hcount]
              simp
              omega
      | wsClose sid =>
          rw [connectSids_cons_wsClose] at hcn hcr
          rw [closeSids_cons_wsClose] at hln hld
          obtain ⟨hsid, hln'⟩ := List.nodup_cons.mp hln
          by_cases hm : sid ∈ s.registered
          · have hstep : srvStep K s (.wsClose sid) =
                ⟨s.connectionCount - 1, s.registered, sid :: s.decrements⟩ := by
              show closeListener s sid = _
              simp [closeListener, hm]
            rw [runSrv_cons, hstep]
            obtain ⟨hrn, hdn, hsub, hcount⟩ := hinv
            refine ih _ hcn hln' hcr ?_ ⟨hrn, ?_, ?_, ?_⟩
            · intro x hx
              have h1 : x ∉ s.decrements := hld x (List.mem_cons_of_mem _ hx)
              have h2 : x ≠ sid := fun h => hsid (h ▸ hx)
              simp [h2, h1]
            · exact List.nodup_cons.mpr ⟨hld sid (List.mem_cons_self _ _), hdn⟩
            · intro x hx
              rcases List.mem_cons.mp hx with h | h
              · exact h ▸ hm
              · exact hsub x h
            · show s.connectionCount - 1 = _ - ((sid :: s.decrements).length : Int)
              rw [hcount]
              simp
              omega
          · rw [runSrv_cons, show srvStep K s (.wsClose sid) = s by
              show closeListener s sid = s
              simp [closeListener, hm]]
            exact ih s hcn hln' hcr (fun x hx => hld x (List.mem_cons_of_mem _ hx)) hinv
      | wsError sid =>
          rw [connectSids_cons_wsError] at hcn hcr
          rw [closeSids_cons_wsError] at hln hld
          exact ih s hcn hln hcr hld hinv
      | timeoutFire sid =>
          rw [connectSids_cons_timeoutFire] at hcn hcr
          rw [closeSids_cons_timeoutFire] at hln hld
          exact ih s hcn hln hcr hld hinv

theorem closesAfterConnects_append_left (l₁ l₂ : List SrvEvent) :
    ∀ cs : List Sid, closesAfterConnects cs (l₁ ++ l₂) = true →
      closesAfterConnects cs l₁ = true := by
  induction l₁ with
  | nil => intro cs _; rfl
  | cons e l ih =>
      intro cs h
      cases e with
      | connect sid => exact ih (sid :: cs) h
      | wsClose sid =>
          rw [List.cons_append, closesAfterConnects] at h
          obtain ⟨h1, h2⟩ := Bool.and_eq_true_iff.mp h
          rw [closesAfterConnects]
          exact Bool.and_eq_true_iff.mpr ⟨h1, ih cs h2⟩
      | wsError sid => exact ih cs h
      | timeoutFire sid => exact ih cs h

theorem closesAfterConnects_split (tr : List SrvEvent) :
    ∀ (cs : List Sid) (sid : Sid), closesAfterConnects cs tr = true →
      SrvEvent.wsClose sid ∈ tr →
      ∃ pre post, tr = pre ++ SrvEvent.wsClose sid :: post ∧
        (sid ∈ cs ∨ sid ∈ connectSids pre) := by
  induction tr with
  | nil => intro cs sid _ h; exact absurd h (List.not_mem_nil _)
  | cons e l ih =>
      intro cs sid hw hm
      rcases List.mem_cons.mp hm with he | he
      · refine ⟨[], l, by simp [← he], Or.inl ?_⟩
        rw [← he, closesAfterConnects] at hw
        have h1 := (Bool.and_eq_true_iff.mp hw).1
        simpa [List.contains_iff_exists_mem_beq] using h1
      · cases e with
        | connect c =>
            obtain ⟨pre, post, heq, hcs⟩ := ih (c :: cs) sid hw he
            refine ⟨.connect c :: pre, post, by simp [heq], ?_⟩
            rcases hcs with hcs | hcs
            · rcases List.mem_cons.mp hcs with h | h
              · exact Or.inr (by simp [connectSids_cons_connect, h])
              · exact Or.inl h
            · exact Or.inr (by simp [connectSids_cons_connect, Or.inr hcs])
        | wsClose c =>
            rw [closesAfterConnects] at hw
            obtain ⟨h1, h2⟩ := Bool.and_eq_true_iff.mp hw
            obtain ⟨pre, post, heq, hcs⟩ := ih cs sid h2 he
            exact ⟨.wsClose c :: pre, post, by simp [heq],
              by simpa [connectSids_cons_wsClose] using hcs⟩
        | wsError c =>
            obtain ⟨pre, post, heq, hcs⟩ := ih cs sid hw he
            exact ⟨.wsError c :: pre, post, by simp [heq],
              by simpa [connectSids_cons_wsError] using hcs⟩
        | timeoutFire c =>
            obtain ⟨pre, post, heq, hcs⟩ := ih cs sid hw he
            exact ⟨.timeoutFire c :: pre, post, by simp [heq],
              by simpa [connectSids_cons_timeoutFire] using hcs⟩

/-- C7: over every wellformed interleaving of connection attempts, socket
closes (at most one per socket, after its connect — the ws contract), socket
errors and startup-timeout firings: the connection counter never becomes
negative at any point of the trace; no session is ever decremented more than
once; only admitted sessions are ever decremented; and every admitted
session whose socket has closed — whichever path caused the close
(disconnect, validation failure, timeout, engine error), and regardless of
any error or timeout events for the same session — has been decremented
exactly once. -/
theorem connectionCounter_decrement_exactly_once (K : Nat) (tr : List SrvEvent)
    (h : WfTrace tr) :
    (∀ pre post, tr = pre ++ post → 0 ≤ (runSrv K initialSrvState pre).connectionCount) ∧
    (∀ sid : Sid, (runSrv K initialSrvState tr).decrements.count sid ≤ 1) ∧
    (∀ sid : Sid, sid ∈ (runSrv K initialSrvState tr).decrements →
        sid ∈ (runSrv K initialSrvState tr).registered) ∧
    (∀ sid : Sid, sid ∈ (runSrv K initialSrvState tr).registered →
        SrvEvent.wsClose sid ∈ tr →
        (runSrv K initialSrvState tr).decrements.count sid = 1) := by
  obtain ⟨hcn, hln, hcc⟩ := h
  have hinv : SrvInv (runSrv K initialSrvState tr) :=
    runSrv_inv tr K _ hcn hln (by intro x hx; simp [initialSrvState])
      (by intro x hx; simp [initialSrvState]) srvInv_initial
  obtain ⟨hrn, hdn, hsub, hcount⟩ := hinv
  refine ⟨?_, ?_, ?_, ?_⟩
  · intro pre post hsplit
    subst hsplit
    rw [connectSids_append] at hcn
    rw [closeSids_append] at hln
    exact srvInv_nonneg _ (runSrv_inv pre K _ hcn.of_append_left hln.of_append_left
      (by intro x hx; simp [initialSrvState]) (by intro x hx; simp [initialSrvState])
      srvInv_initial)
  · intro sid
    exact List.nodup_iff_count_le_one.mp hdn sid
  · intro sid hmem
    exact hsub sid hmem
  · intro sid hreg hclose
    obtain ⟨pre, post, heq, hcs⟩ := closesAfterConnects_split tr [] sid hcc hclose
    rcases hcs with hcs | hcs
    · exact absurd hcs (List.not_mem_nil _)
    · have hregpre : sid ∈ (runSrv K initialSrvState pre).registered := by
        rw [heq, runSrv_append] at hreg
        rcases runSrv_registered_source K (SrvEvent.wsClose sid :: post)
            (runSrv K initialSrvState pre) sid hreg with h' | h'
        · exact h'
        · exfalso
          have hp : SrvEvent.connect sid ∈ post := by
            rcases List.mem_cons.mp h' with h'' | h''
            · exact SrvEvent.noConfusion h''
            · exact h''
          have h1 : sid ∈ connectSids post := (mem_connectSids sid post).mpr hp
          have hcn' := hcn
          rw [heq, connectSids_append] at hcn'
          exact absurd h1 ((List.nodup_append.mp (by
            simpa [connectSids_cons_wsClose] using hcn')).2.2 hcs)
      have hdec : sid ∈ (runSrv K initialSrvState tr).decrements := by
        rw [heq, runSrv_append]
        exact runSrv_closed_decrements K (SrvEvent.wsClose sid :: post) _ sid hregpre
          (List.mem_cons_self _ _)
      have hpos : 0 < (runSrv K initialSrvState tr).decrements.count sid :=
        List.count_pos_iff.mpr hdec
      have hle := List.nodup_iff_count_le_one.mp hdn sid
      omega

theorem connectionCounter_decrement_exactly_once_witness :
    0 ≤ (runSrv 1 initialSrvState [SrvEvent.connect 3]).connectionCount ∧
    (runSrv 1 initialSrvState
        [SrvEvent.connect 3, SrvEvent.wsError 3, SrvEvent.wsClose 3]).decrements.count 3 = 1 := by
  have h := connectionCounter_decrement_exactly_once 1
    [SrvEvent.connect 3, SrvEvent.wsError 3, SrvEvent.wsClose 3]
    ⟨by decide, by decide, by decide⟩
  exact ⟨h.1 [SrvEvent.connect 3] [SrvEvent.wsError 3, SrvEvent.wsClose 3] rfl,
    h.2.2.2 3 (by decide) (by decide)⟩
